import Mathlib

/-!
A verification development for the confit repository: a shallow embedding of
its git-output parsing layer (nom 5 combinators over character lists) and of
its check-evaluation engine (`preserves.rs`), together with theorems about
the behaviour of both.

Inputs are modelled as `List Char`; a nom `IResult<&str, O>` becomes
`Except PError (Input × α)` where the `ok` case carries the remaining input
first, exactly as nom does.  All errors produced by the embedded combinators
are nom `Err::Error` values (the code uses only `complete` combinators and no
`cut`), so an error is modelled as the pair of the remainder at the point of
failure and the nom `ErrorKind`.
-/

namespace Confit

abbrev Input := List Char

inductive ErrorKind where
  | Tag
  | TakeUntil
  | TakeWhileMN
  | TakeTill1
  | MapRes
  | OneOf
  | Eof
  | Many0
  | SeparatedList
  deriving DecidableEq

structure PError where
  rest : Input
  kind : ErrorKind
  deriving DecidableEq

abbrev IResult (α : Type) := Except PError (Input × α)

deriving instance DecidableEq for Except

abbrev Parser (α : Type) := Input → IResult α

namespace Nom

/-- nom `bytes::complete::tag`: match the literal `t` at the head of the input. -/
def tag (t : Input) : Parser Input := fun i =>
  if t.isPrefixOf i then .ok (i.drop t.length, t) else .error ⟨i, .Tag⟩

/-- Scanner behind nom `bytes::complete::take_until`: returns
`(consumed-before-t, remainder-starting-with-t)` at the first occurrence of
`t`, or `none` when `t` never occurs. -/
def takeUntilAux (t : Input) : Input → Option (Input × Input)
  | [] => if t.isPrefixOf ([] : Input) then some ([], []) else none
  | c :: cs =>
    if t.isPrefixOf (c :: cs) then some ([], c :: cs)
    else match takeUntilAux t cs with
         | some (pre, rest) => some (c :: pre, rest)
         | none => none

/-- nom `bytes::complete::take_until`: consume up to (not including) the first
occurrence of `t`; error when `t` is absent. -/
def takeUntil (t : Input) : Parser Input := fun i =>
  match takeUntilAux t i with
  | some (pre, rest) => .ok (rest, pre)
  | none => .error ⟨i, .TakeUntil⟩

/-- nom `bytes::complete::take_while`: longest (possibly empty) prefix of
characters satisfying `p`; never fails. -/
def takeWhile (p : Char → Bool) : Parser Input := fun i =>
  .ok (i.dropWhile p, i.takeWhile p)

/-- nom `bytes::complete::take_while_m_n`: between `m` and `n` characters
satisfying `p`; errors when fewer than `m` match. -/
def takeWhileMN (m n : Nat) (p : Char → Bool) : Parser Input := fun i =>
  let w := i.takeWhile p
  if w.length < m then .error ⟨i, .TakeWhileMN⟩
  else .ok (i.drop (min w.length n), i.take (min w.length n))

/-- nom `bytes::complete::take_till1`: at least one character NOT satisfying
`p`; errors on empty match. -/
def takeTill1 (p : Char → Bool) : Parser Input := fun i =>
  let w := i.takeWhile (fun c => ! p c)
  if w = [] then .error ⟨i, .TakeTill1⟩
  else .ok (i.drop w.length, w)

/-- nom `bytes::complete::take`: exactly `n` characters. -/
def take (n : Nat) : Parser Input := fun i =>
  if n ≤ i.length then .ok (i.drop n, i.take n) else .error ⟨i, .Eof⟩

/-- nom `character::complete::one_of`. -/
def oneOf (cs : Input) : Parser Char := fun i =>
  match i with
  | [] => .error ⟨[], .OneOf⟩
  | c :: rest => if cs.contains c then .ok (rest, c) else .error ⟨c :: rest, .OneOf⟩

/-- Sequencing as used by the repository's `let (i, x) = p(i)?` chains. -/
def pbind (p : Parser α) (f : α → Parser β) : Parser β := fun i =>
  match p i with
  | .error e => .error e
  | .ok (i1, v) => f v i1

/-- nom `combinator::map`. -/
def pmap (p : Parser α) (f : α → β) : Parser β := fun i =>
  match p i with
  | .error e => .error e
  | .ok (r, v) => .ok (r, f v)

/-- nom `combinator::map_res`; note the error is reported at the ORIGINAL
input position, as nom does. -/
def mapRes (p : Parser α) (f : α → Option β) : Parser β := fun i =>
  match p i with
  | .error e => .error e
  | .ok (r, v) =>
    match f v with
    | some w => .ok (r, w)
    | none => .error ⟨i, .MapRes⟩

/-- nom `combinator::opt`: backtracks to the original input on error. -/
def opt (p : Parser α) : Parser (Option α) := fun i =>
  match p i with
  | .ok (r, v) => .ok (r, some v)
  | .error _ => .ok (i, none)

/-- nom `branch::alt` for two alternatives (nested for more). -/
def alt2 (p q : Parser α) : Parser α := fun i =>
  match p i with
  | .ok r => .ok r
  | .error _ => q i

def pure (v : α) : Parser α := fun i => .ok (i, v)

/-- nom `sequence::preceded`. -/
def preceded (a : Parser α) (b : Parser β) : Parser β :=
  pbind a fun _ => b

/-- nom `sequence::terminated`. -/
def terminated (a : Parser α) (b : Parser β) : Parser α :=
  pbind a fun v => pmap b fun _ => v

/-- nom `sequence::delimited`. -/
def delimited (a : Parser α) (b : Parser β) (c : Parser γ) : Parser β :=
  pbind a fun _ => pbind b fun v => pmap c fun _ => v

/-- nom `sequence::separated_pair`. -/
def separatedPair (a : Parser α) (s : Parser σ) (b : Parser β) : Parser (α × β) :=
  pbind a fun x => pbind s fun _ => pmap b fun y => (x, y)

/-- nom `multi::count`: run `p` exactly `n` times. -/
def countP (p : Parser α) : Nat → Parser (List α)
  | 0 => pure []
  | n + 1 => pbind p fun v => pmap (countP p n) fun vs => v :: vs

/-- Fuel-driven loop of nom `multi::many0`.  nom loops until the inner parser
fails (success) or succeeds without consuming (error `Many0`); the fuel only
bounds the recursion and `|input| + 1` units can never run out, because every
iteration consumes at least one character. -/
def many0F (p : Parser α) : Nat → Parser (List α)
  | 0 => fun i => .error ⟨i, .Many0⟩
  | fuel + 1 => fun i =>
    match p i with
    | .error _ => .ok (i, [])
    | .ok (i1, v) =>
      if i1.length < i.length then
        match many0F p fuel i1 with
        | .error e => .error e
        | .ok (r, vs) => .ok (r, v :: vs)
      else .error ⟨i, .Many0⟩

/-- nom `multi::many0`. -/
def many0 (p : Parser α) : Parser (List α) := fun i => many0F p (i.length + 1) i

/-- Fuel-driven tail loop of nom `multi::separated_nonempty_list`: repeatedly
parse separator-then-element; stop (successfully, backtracking the separator)
as soon as either fails; error when the separator succeeds without consuming. -/
def sepListLoopF (sep : Parser σ) (p : Parser α) : Nat → List α → Parser (List α)
  | 0, _ => fun i => .error ⟨i, .SeparatedList⟩
  | fuel + 1, acc => fun i =>
    match sep i with
    | .error _ => .ok (i, acc)
    | .ok (i1, _) =>
      if i1.length < i.length then
        match p i1 with
        | .error _ => .ok (i, acc)
        | .ok (i2, v) => sepListLoopF sep p fuel (acc ++ [v]) i2
      else .error ⟨i1, .SeparatedList⟩

/-- nom `multi::separated_nonempty_list`. -/
def separatedNonemptyList (sep : Parser σ) (p : Parser α) : Parser (List α) := fun i =>
  match p i with
  | .error e => .error e
  | .ok (i1, v) => sepListLoopF sep p (i1.length + 1) [v] i1

end Nom

namespace Git

open Nom

/-! ### Shared data model and token scanners (`src/git/parse.rs`) -/

/-- `ObjectName(String)`. -/
structure ObjectName where
  name : Input
  deriving DecidableEq

/-- `RefName(String)`. -/
structure RefName where
  name : Input
  deriving DecidableEq

/-- `WorkPath(OsString)`: the path text captured verbatim. -/
structure WorkPath where
  path : Input
  deriving DecidableEq

/-- `TrackingCounts(pub u64, pub u64)`: (ahead, behind). -/
structure TrackingCounts where
  ahead : Nat
  behind : Nat
  deriving DecidableEq

/-- `parse::Err<I>`.  The embedded combinators are all `complete` and never
produce `Incomplete`, and no combinator surfaces a bare `ParseIntError`, so
only the `Trailing` and `Failed` constructors are reachable. -/
inductive Err where
  | Trailing (rest : Input)
  | Failed (e : PError)
  deriving DecidableEq

/-- `settle_parse_result`: a nom result is accepted only when the remaining
input equals the default (empty) input; any leftover becomes `Trailing`. -/
def settle_parse_result (r : IResult α) : Except Err α :=
  match r with
  | .ok (rest, v) => if rest = [] then .ok v else .error (.Trailing rest)
  | .error e => .error (.Failed e)

def is_digit (c : Char) : Bool := c.isDigit

/-- `c.is_digit(16)`: decimal digits plus `a`-`f` and `A`-`F`. -/
def is_hex_digit (c : Char) : Bool :=
  c.isDigit || (decide ('a' ≤ c) && decide (c ≤ 'f')) || (decide ('A' ≤ c) && decide (c ≤ 'F'))

/-- `sha`: exactly 40 hexadecimal characters. -/
def sha : Parser ObjectName :=
  pmap (takeWhileMN 40 40 is_hex_digit) ObjectName.mk

def end_of_path (c : Char) : Bool := c = '\t' || c = '\n'

/-- `filepath`: at least one character, up to a tab or newline, verbatim. -/
def filepath : Parser WorkPath :=
  pmap (takeTill1 end_of_path) WorkPath.mk

/-- Decimal value of a digit string. -/
def digitsVal (s : Input) : Nat :=
  s.foldl (fun a c => a * 10 + (c.toNat - '0'.toNat)) 0

/-- Rust `str::parse::<uN>` restricted to inputs produced by
`take_while(is_digit)`: fails on the empty string and on overflow past
`bound` (the integer type's size); on such digit-only inputs this matches the
Rust parser exactly. -/
def parseNatLt (bound : Nat) (s : Input) : Option Nat :=
  if s.isEmpty then none
  else if s.all is_digit then
    if digitsVal s < bound then some (digitsVal s) else none
  else none

/-! ### Status parsing (`src/git/parse/status.rs`) -/

inductive Oid where
  | Initial
  | Commit (n : ObjectName)
  deriving DecidableEq

inductive Head where
  | Detached
  | Branch (r : RefName)
  deriving DecidableEq

structure Branch where
  oid : Oid
  head : Head
  upstream : Option RefName
  commits : Option TrackingCounts
  deriving DecidableEq

/-- `Mode([u8; 6])`; `ofList` mirrors `TryFrom<Vec<u8>>`, which only accepts
exactly six digits. -/
structure Mode where
  digits : List Nat
  deriving DecidableEq

def Mode.ofList (v : List Nat) : Option Mode :=
  if v.length = 6 then some ⟨v⟩ else none

inductive LineStatus where
  | Unmodified | Modified | Added | Deleted | Renamed
  | Copied | Unmerged | Untracked | Ignored
  deriving DecidableEq

structure StatusPair where
  staged : LineStatus
  unstaged : LineStatus
  deriving DecidableEq

inductive SubmoduleStatus where
  | Not
  | Is (commit_changed has_modifications has_untracked : Bool)
  deriving DecidableEq

inductive ChangeScore where
  | Rename (percent : Nat)
  | Copy (percent : Nat)
  deriving DecidableEq

inductive StatusLine where
  | One (status : StatusPair) (sub : SubmoduleStatus)
        (head_mode index_mode worktree_mode : Mode)
        (head_obj index_obj : ObjectName) (path : WorkPath)
  | Two (status : StatusPair) (sub : SubmoduleStatus)
        (head_mode index_mode worktree_mode : Mode)
        (head_obj index_obj : ObjectName) (change_score : ChangeScore)
        (path orig_path : WorkPath)
  | Unmerged (status : StatusPair) (sub : SubmoduleStatus)
        (stage1_mode stage2_mode stage3_mode worktree_mode : Mode)
        (stage1_obj stage2_obj stage3_obj : ObjectName) (path : WorkPath)
  | Untracked (path : WorkPath)
  | Ignored (path : WorkPath)
  deriving DecidableEq

structure Status where
  branch : Option Branch
  lines : List StatusLine
  deriving DecidableEq

/-- `impl Default for Status`. -/
def Status.default : Status := { branch := none, lines := [] }

/-- `branch_oid`: `# branch.oid ` then `(initial)` or ANY text up to the
newline (taken verbatim into `Oid::Commit`), then the newline. -/
def branch_oid : Parser Oid :=
  delimited (tag ("# branch.oid ".toList))
    (alt2 (pmap (tag ("(initial)".toList)) fun _ => Oid.Initial)
          (pmap (takeUntil ['\n']) fun s => Oid.Commit ⟨s⟩))
    (tag ['\n'])

/-- `branch_head`. -/
def branch_head : Parser Head :=
  delimited (tag ("# branch.head ".toList))
    (alt2 (pmap (tag ("(detached)".toList)) fun _ => Head.Detached)
          (pmap (takeUntil ['\n']) fun s => Head.Branch ⟨s⟩))
    (tag ['\n'])

/-- `branch_upstream`. -/
def branch_upstream : Parser RefName :=
  delimited (tag ("# branch.upstream ".toList))
    (pmap (takeUntil ['\n']) RefName.mk)
    (tag ['\n'])

/-- `tagged_commits`: a sign pattern then decimal digits, parsed as `u64`. -/
def tagged_commits (pattern : Input) : Parser Nat :=
  mapRes (preceded (tag pattern) (takeWhile is_digit)) (parseNatLt (2 ^ 64))

/-- `branch_commits`: `# branch.ab +<N> -<M>`. -/
def branch_commits : Parser TrackingCounts :=
  pmap (delimited (tag ("# branch.ab ".toList))
          (separatedPair (tagged_commits ['+']) (tag [' ']) (tagged_commits ['-']))
          (tag ['\n']))
    fun p => TrackingCounts.mk p.1 p.2

/-- `branch`: oid line, head line, optional upstream line, optional ab line. -/
def branch : Parser Branch :=
  pbind branch_oid fun oid =>
  pbind branch_head fun head =>
  pbind (opt branch_upstream) fun upstream =>
  pmap (opt branch_commits) fun commits =>
  Branch.mk oid head upstream commits

/-- `from_octal`: `u8::from_str_radix(input, 8)`.  The input is always the
single character produced by `take(1)`, on which this model agrees with Rust
exactly (octal digit accepted, anything else rejected). -/
def from_octal (s : Input) : Option Nat :=
  if s.isEmpty then none
  else if s.all (fun c => decide ('0' ≤ c) && decide (c ≤ '7')) then
    let v := s.foldl (fun a c => a * 8 + (c.toNat - '0'.toNat)) 0
    if v < 256 then some v else none
  else none

def octal : Parser Nat := mapRes (take 1) from_octal

def mode : Parser Mode := mapRes (countP octal 6) Mode.ofList

/-- The character table of `line_status`'s match arms. -/
def line_status_tbl (s : Input) : Option LineStatus :=
  match s with
  | ['.'] => some .Unmodified
  | ['M'] => some .Modified
  | ['A'] => some .Added
  | ['D'] => some .Deleted
  | ['R'] => some .Renamed
  | ['C'] => some .Copied
  | ['U'] => some .Unmerged
  | ['?'] => some .Untracked
  | ['!'] => some .Ignored
  | _ => none

/-- `line_status`: one character selecting a `LineStatus`; note the Rust code
reports failure at the REMAINING input (after the taken character). -/
def line_status : Parser LineStatus := fun i =>
  match take 1 i with
  | .error e => .error e
  | .ok (r, s) =>
    match line_status_tbl s with
    | some ls => .ok (r, ls)
    | none => .error ⟨r, .OneOf⟩

/-- `status_pair`: staged then unstaged. -/
def status_pair : Parser StatusPair :=
  pbind line_status fun staged =>
  pmap line_status fun unstaged =>
  StatusPair.mk staged unstaged

def submodule_status_flag (pattern : Input) : Parser Bool :=
  pmap (oneOf pattern) fun c => c != '.'

/-- `submodule_status`: `N...` or `S` plus three flags.  `one_of "NS"` yields
only `'N'` or `'S'`, so the `else` branch is exactly the `'S'` case (the Rust
catch-all panic is unreachable). -/
def submodule_status : Parser SubmoduleStatus :=
  pbind (oneOf ("NS".toList)) fun s =>
  if s = 'N' then
    pmap (countP (oneOf ['.']) 3) fun _ => SubmoduleStatus.Not
  else
    pbind (submodule_status_flag ("C.".toList)) fun c =>
    pbind (submodule_status_flag ("M.".toList)) fun m =>
    pmap (submodule_status_flag ("U.".toList)) fun u =>
    SubmoduleStatus.Is c m u

/-- `tagged_score`: `R`/`C` then a decimal percent parsed as `u8`. -/
def tagged_score (pattern : Input) : Parser Nat :=
  mapRes (preceded (tag pattern) (takeWhile is_digit)) (parseNatLt (2 ^ 8))

def change_score : Parser ChangeScore :=
  alt2 (pmap (tagged_score ['R']) ChangeScore.Rename)
       (pmap (tagged_score ['C']) ChangeScore.Copy)

def untracked_line : Parser StatusLine :=
  pmap filepath StatusLine.Untracked

def ignored_line : Parser StatusLine :=
  pmap filepath StatusLine.Ignored

/-- `one_file_line`. -/
def one_file_line : Parser StatusLine :=
  pbind (terminated status_pair (tag [' '])) fun status =>
  pbind (terminated submodule_status (tag [' '])) fun sub =>
  pbind (terminated mode (tag [' '])) fun head_mode =>
  pbind (terminated mode (tag [' '])) fun index_mode =>
  pbind (terminated mode (tag [' '])) fun worktree_mode =>
  pbind (terminated sha (tag [' '])) fun head_obj =>
  pbind (terminated sha (tag [' '])) fun index_obj =>
  pmap filepath fun path =>
  StatusLine.One status sub head_mode index_mode worktree_mode head_obj index_obj path

/-- `two_file_line`. -/
def two_file_line : Parser StatusLine :=
  pbind (terminated status_pair (tag [' '])) fun status =>
  pbind (terminated submodule_status (tag [' '])) fun sub =>
  pbind (terminated mode (tag [' '])) fun head_mode =>
  pbind (terminated mode (tag [' '])) fun index_mode =>
  pbind (terminated mode (tag [' '])) fun worktree_mode =>
  pbind (terminated sha (tag [' '])) fun head_obj =>
  pbind (terminated sha (tag [' '])) fun index_obj =>
  pbind (terminated change_score (tag [' '])) fun score =>
  pbind (terminated filepath (tag ['\t'])) fun path =>
  pmap filepath fun orig_path =>
  StatusLine.Two status sub head_mode index_mode worktree_mode head_obj index_obj score path orig_path

/-- `unmerged_file_line`. -/
def unmerged_file_line : Parser StatusLine :=
  pbind (terminated status_pair (tag [' '])) fun status =>
  pbind (terminated submodule_status (tag [' '])) fun sub =>
  pbind (terminated mode (tag [' '])) fun stage1_mode =>
  pbind (terminated mode (tag [' '])) fun stage2_mode =>
  pbind (terminated mode (tag [' '])) fun stage3_mode =>
  pbind (terminated mode (tag [' '])) fun worktree_mode =>
  pbind (terminated sha (tag [' '])) fun stage1_obj =>
  pbind (terminated sha (tag [' '])) fun stage2_obj =>
  pbind (terminated sha (tag [' '])) fun stage3_obj =>
  pmap filepath fun path =>
  StatusLine.Unmerged status sub stage1_mode stage2_mode stage3_mode worktree_mode
    stage1_obj stage2_obj stage3_obj path

/-- `status_line`: the five tagged body productions, in the code's order. -/
def status_line : Parser StatusLine :=
  alt2 (preceded (tag ("? ".toList)) untracked_line)
  (alt2 (preceded (tag ("! ".toList)) ignored_line)
  (alt2 (preceded (tag ("1 ".toList)) one_file_line)
  (alt2 (preceded (tag ("2 ".toList)) two_file_line)
        (preceded (tag ("u ".toList)) unmerged_file_line))))

def status_lines : Parser (List StatusLine) :=
  many0 (terminated status_line (tag ['\n']))

/-- `status`: optional branch header block, then body lines. -/
def status : Parser Status :=
  pbind (opt branch) fun b =>
  pmap status_lines fun lines =>
  Status.mk b lines

/-- `status::parse`: the whole-input status parser. -/
def parse (i : Input) : Except Err Status :=
  settle_parse_result (status i)

/-! ### Ref-record fragments (`src/git/parse/for_each_ref.rs`) -/

inductive ObjectType where
  | Blob | Tree | Commit | Tag
  deriving DecidableEq

def object_type : Parser ObjectType :=
  alt2 (pmap (tag ("commit".toList)) fun _ => ObjectType.Commit)
  (alt2 (pmap (tag ("blob".toList)) fun _ => ObjectType.Blob)
  (alt2 (pmap (tag ("tree".toList)) fun _ => ObjectType.Tree)
        (pmap (tag ("tag".toList)) fun _ => ObjectType.Tag)))

inductive Sign where
  | Pos | Neg
  deriving DecidableEq

/-- `impl FromStr for Sign` applied to the one-character output of
`alt((tag("+"), tag("-")))`. -/
def Sign.ofChars (s : Input) : Option Sign :=
  if s = ['+'] then some .Pos
  else if s = ['-'] then some .Neg
  else none

/-- Lower bound of chrono 0.4's `NaiveDateTime` range in Unix seconds
(midnight, January 1 of year −262144 of the proleptic Gregorian calendar). -/
def chronoMinTimestamp : Int := -8334632851200

/-- Upper bound of chrono 0.4's `NaiveDateTime` range in Unix seconds
(23:59:59, December 31 of year 262143). -/
def chronoMaxTimestamp : Int := 8210298412799

/-- `build_timestamp`, with chrono 0.4 (an external library) modelled as its
documentation and the repository's own `creator_parse` test pin it down.
`FixedOffset::east`/`west` PANIC when the offset magnitude reaches 86400
seconds, i.e. when `(hours*60 + minutes)*60 ≥ 86400`: the outer `none`
models that abort — the program produces no value at all there.  Otherwise
`TimeZone::timestamp_opt(secs, 0)` interprets `secs` as seconds since the
Unix epoch (UTC); the instant it denotes is independent of the fixed offset,
and converting `DateTime<FixedOffset>` to `DateTime<Utc>` preserves the
instant (the test expects epoch `1570644797` with zone `-0700` to equal
`2019-10-09 18:13:17 +0000`, which is the epoch value itself).  The inner
option is `none` exactly when `secs` falls outside `NaiveDateTime`'s
representable range.  A `DateTime<Utc>` is represented by its Unix-seconds
value. -/
def build_timestamp (offset : Sign × Nat × Nat) (secs_epoch : Int) : Option (Option Int) :=
  match offset with
  | (_, hours, minutes) =>
    if (hours * 60 + minutes) * 60 < 86400 then
      some (if chronoMinTimestamp ≤ secs_epoch ∧ secs_epoch ≤ chronoMaxTimestamp
            then some secs_epoch else none)
    else none

/-- The pure nom part of `creator`, up to and including the zone minutes:
`<name> '<' email '> ' <epoch digits> ' ' <sign><hh><mm>`. -/
def creator_fields : Parser (Input × Input × Nat × Sign × Nat × Nat) :=
  pbind (takeUntil (" <".toList)) fun name =>
  pbind (tag (" <".toList)) fun _ =>
  pbind (takeUntil ("> ".toList)) fun email =>
  pbind (tag ("> ".toList)) fun _ =>
  pbind (mapRes (takeWhile is_digit) (parseNatLt (2 ^ 63))) fun secs_epoch =>
  pbind (tag [' ']) fun _ =>
  pbind (mapRes (alt2 (tag ['+']) (tag ['-'])) Sign.ofChars) fun sign =>
  pbind (mapRes (takeWhileMN 2 2 is_digit) (parseNatLt (2 ^ 31))) fun hours =>
  pmap (mapRes (takeWhileMN 2 2 is_digit) (parseNatLt (2 ^ 31))) fun minutes =>
  (name, email, secs_epoch, sign, hours, minutes)

/-- `creator`: the parsed fields fed to `build_timestamp`.  The outer
`Option` models abort: `none` is chrono's `FixedOffset::east`/`west` panic
on a zone offset of 86400 seconds or more (reachable through the two-digit
zone grammar, e.g. `+2400`), which never yields a parse result at all.  A
timestamp rejected by `timestamp_opt` becomes a nom error at the position
after the minutes, with kind `TakeWhileMN`, exactly as the code's `ok_or`
does. -/
def creator (i : Input) : Option (IResult (Input × Input × Int)) :=
  match creator_fields i with
  | .error e => some (.error e)
  | .ok (rest, (name, email, secs_epoch, sign, hours, minutes)) =>
    match build_timestamp (sign, hours, minutes) (secs_epoch : Int) with
    | none => none
    | some (some ts) => some (.ok (rest, (name, email, ts)))
    | some none => some (.error ⟨rest, .TakeWhileMN⟩)

/-- `ahead`: `ahead N` as an (ahead, behind) contribution. -/
def ahead : Parser (Nat × Nat) :=
  pbind (tag ("ahead ".toList)) fun _ =>
  pmap (mapRes (takeWhile is_digit) (parseNatLt (2 ^ 64))) fun n => (n, 0)

/-- `behind`: `behind N` as an (ahead, behind) contribution. -/
def behind : Parser (Nat × Nat) :=
  pbind (tag ("behind ".toList)) fun _ =>
  pmap (mapRes (takeWhile is_digit) (parseNatLt (2 ^ 64))) fun n => (0, n)

/-- `ahead_behind`: a `", "`-separated nonempty list of ahead/behind clauses,
summed componentwise. -/
def ahead_behind : Parser (Nat × Nat) :=
  pmap (separatedNonemptyList (tag (", ".toList)) (alt2 ahead behind)) fun list =>
    list.foldl (fun sum pair => (sum.1 + pair.1, sum.2 + pair.2)) (0, 0)

/-- `tracking_state`: `[gone]` is the gone sentinel (`None`); a bracketed
clause list gives explicit counts; the empty tag always succeeds with
`(0,0)`. -/
def tracking_state : Parser (Option (Nat × Nat)) :=
  alt2 (pmap (tag ("[gone]".toList)) fun _ => none)
  (alt2 (pmap (delimited (tag ['[']) ahead_behind (tag [']'])) fun p => some p)
        (pmap (tag []) fun _ => some (0, 0)))

/-- Modelled from the spec: the `RefRecord` type (`git::RefLine`) consumed by
`preserves.rs`; the revision of `for_each_ref.rs` that defines it is missing
from the snapshot (the snapshot's private `EachRefName` lacks
`referred_object` and no `RefLine` is declared).  Per §3 of the spec it
carries the object name, the object type, an optional peeled target (for
annotated tags) and the local ref name; the creator and upstream fields play
no role in any claim or in `tag_on_commit` and are omitted. -/
structure RefLine where
  object_name : ObjectName
  object_type : ObjectType
  referred_object : Option ObjectName
  local_ref : RefName
  deriving DecidableEq

/-! ### Remote-ref parsing (`src/git/parse/ls_remote.rs`) -/

/-- Modelled from the spec: `RemoteRefPair{refname: ObjectName, path: ref
name}` — the revision of `ls_remote.rs` consumed by `preserves.rs` (which
compares `refname` against an `ObjectName`) is missing from the snapshot; the
snapshot's older `RefPair` stores the same 40-hex id as a plain `String`. -/
structure RefPair where
  refname : ObjectName
  path : WorkPath
  deriving DecidableEq

/-- `ref_pair`: `<40-hex-id> TAB <ref path>`. -/
def ref_pair : Parser RefPair :=
  pbind (terminated sha (tag ['\t'])) fun refname =>
  pmap filepath fun path =>
  RefPair.mk refname path

/-- `ref_pairs`: newline-terminated records, whole input. -/
def ref_pairs (i : Input) : Except Err (List RefPair) :=
  settle_parse_result (many0 (terminated ref_pair (tag ['\n'])) i)

end Git

namespace Preserves

open Git

/-! ### Data-source groups (`src/preserves.rs`, `mod datasource`) -/

/-- `Group(u16)`: a bitset of data-source kinds. -/
structure Group where
  val : Nat
  deriving DecidableEq

/-- `Group::includes`: non-empty bit intersection. -/
def Group.includes (self item : Group) : Bool :=
  (self.val &&& item.val) != 0

/-- `const fn union` (also `impl BitOr for Group`). -/
def Group.union (l r : Group) : Group :=
  ⟨l.val ||| r.val⟩

def EMPTY : Group := ⟨0⟩

def STATUS : Group := ⟨1⟩

def REFS : Group := ⟨2⟩

def REMOTE : Group := ⟨4⟩

/-! ### Check results and the check registry -/

inductive CheckResult where
  | Passed
  | Failed
  | Bad (n : Nat)
  deriving DecidableEq

/-- `impl From<usize> for CheckResult` (and `From<u64>` via it). -/
def CheckResult.fromCount (n : Nat) : CheckResult :=
  if n = 0 then .Passed else .Bad n

/-- `impl From<bool> for CheckResult`. -/
def CheckResult.fromBool (x : Bool) : CheckResult :=
  if x then .Passed else .Failed

/-- `matches!(result, CheckResult::Passed)`. -/
def CheckResult.isPassed : CheckResult → Bool
  | .Passed => true
  | _ => false

/-- The dataset part of `Summary`: the three parsed sources.  Rust's
evaluators take `&Summary` but read only these three fields; splitting them
out keeps `Check.eval`'s domain independent of the check list itself. -/
structure SummaryData where
  status : Status
  ls_remote : List RefPair
  for_each_ref : List RefLine

/-- `Check`: static data plus a pure evaluator. -/
structure Check where
  label : String
  tags : List String
  glyph : Char
  status_group : Nat
  required_data : Group
  threshold : Nat
  eval : SummaryData → CheckResult

/-- `Summary`: the three datasets plus the selected checks. -/
structure Summary where
  data : SummaryData
  checks : List Check

/-- `Summary::tag_on_commit`: first ref of type Tag whose peeled target
equals `c`, yielding that ref's own object name. -/
def tag_on_commit (s : SummaryData) (c : ObjectName) : Option ObjectName :=
  (s.for_each_ref.find? fun rl =>
      decide (rl.object_type = ObjectType.Tag) &&
      ((rl.referred_object.map fun ro => decide (ro = c)).getD false)).map
    fun rl => rl.object_name

/-! ### Check evaluators -/

/-- `untracked_files`: count of `Untracked` lines. -/
def untracked_files (s : SummaryData) : CheckResult :=
  CheckResult.fromCount (s.status.lines.countP fun line =>
    match line with
    | .Untracked _ => true
    | _ => false)

/-- `modified_files`: lines whose unstaged status is not `Unmodified`. -/
def modified_files (s : SummaryData) : CheckResult :=
  CheckResult.fromCount (s.status.lines.countP fun line =>
    match line with
    | .One status _ _ _ _ _ _ _ => decide (status.unstaged ≠ LineStatus.Unmodified)
    | .Two status _ _ _ _ _ _ _ _ _ => decide (status.unstaged ≠ LineStatus.Unmodified)
    | .Unmerged status _ _ _ _ _ _ _ _ _ => decide (status.unstaged ≠ LineStatus.Unmodified)
    | _ => false)

/-- `uncommited_changes`: same over the staged half. -/
def uncommited_changes (s : SummaryData) : CheckResult :=
  CheckResult.fromCount (s.status.lines.countP fun line =>
    match line with
    | .One status _ _ _ _ _ _ _ => decide (status.staged ≠ LineStatus.Unmodified)
    | .Two status _ _ _ _ _ _ _ _ _ => decide (status.staged ≠ LineStatus.Unmodified)
    | .Unmerged status _ _ _ _ _ _ _ _ _ => decide (status.staged ≠ LineStatus.Unmodified)
    | _ => false)

/-- `detached_head`: a branch exists and its head is not detached. -/
def detached_head (s : SummaryData) : CheckResult :=
  CheckResult.fromBool ((s.status.branch.map fun b => decide (b.head ≠ Head.Detached)).getD false)

/-- `untracked_branch`: a branch exists and has an upstream. -/
def untracked_branch (s : SummaryData) : CheckResult :=
  CheckResult.fromBool ((s.status.branch.map fun b => b.upstream.isSome).getD false)

/-- `remote_changes`: the behind count, defaulting to 1 when the branch or
its counts are missing. -/
def remote_changes (s : SummaryData) : CheckResult :=
  CheckResult.fromCount
    ((s.status.branch.map fun b => (b.commits.map fun tc => tc.behind).getD 1).getD 1)

/-- `unpushed_commit`: the ahead count, same defaulting. -/
def unpushed_commit (s : SummaryData) : CheckResult :=
  CheckResult.fromCount
    ((s.status.branch.map fun b => (b.commits.map fun tc => tc.ahead).getD 1).getD 1)

/-- `untagged_commit`: the branch oid is a concrete commit and some tag peels
to it. -/
def untagged_commit (s : SummaryData) : CheckResult :=
  CheckResult.fromBool
    (match s.status.branch.map fun b => b.oid with
     | some (Oid.Commit c) => (tag_on_commit s c).isSome
     | _ => false)

/-- `unpushed_tag`: the tag found by `tag_on_commit` also appears among the
remote ref pairs. -/
def unpushed_tag (s : SummaryData) : CheckResult :=
  CheckResult.fromBool
    (match s.status.branch.map fun b => b.oid with
     | some (Oid.Commit c) =>
       match tag_on_commit s c with
       | some t => s.ls_remote.any fun rp => decide (rp.refname = t)
       | none => false
     | _ => false)

/-- `ALL_CHECKS`: the static check registry, in source order. -/
def ALL_CHECKS : List Check := [
  { label := "all commits pushed to remote", tags := ["push", "local", "git_prompt"],
    glyph := '↑', status_group := 2, required_data := STATUS,
    eval := unpushed_commit, threshold := 0 },
  { label := "all commits merged from remote", tags := ["merge"],
    glyph := '↓', status_group := 3, required_data := Group.union STATUS REMOTE,
    eval := remote_changes, threshold := 0 },
  { label := "no uncommited changes", tags := ["commit", "local", "git_prompt"],
    glyph := '.', status_group := 1, required_data := STATUS,
    eval := uncommited_changes, threshold := 0 },
  { label := "no unstaged changes", tags := ["stage", "local", "git_prompt"],
    glyph := '+', status_group := 1, required_data := STATUS,
    eval := modified_files, threshold := 0 },
  { label := "all files tracked", tags := ["track_files", "local", "git_prompt"],
    glyph := '?', status_group := 1, required_data := STATUS,
    eval := untracked_files, threshold := 0 },
  { label := "commit tracked by local ref", tags := ["detached", "local", "git_prompt"],
    glyph := '⌱', status_group := 1, required_data := STATUS,
    eval := detached_head, threshold := 0 },
  { label := "branch tracks remote", tags := ["track_remote", "local", "git_prompt"],
    glyph := '⍏', status_group := 2, required_data := STATUS,
    eval := untracked_branch, threshold := 0 },
  { label := "current commit is tagged", tags := ["tag", "local"],
    glyph := '🏷', status_group := 4, required_data := Group.union STATUS REFS,
    eval := untagged_commit, threshold := 0 },
  { label := "tag is pushed", tags := ["push_tag"],
    glyph := '🏳', status_group := 4, required_data := Group.union STATUS REMOTE,
    eval := unpushed_tag, threshold := 0 }
]

/-! ### Items and the exit bitmask -/

structure Item where
  check : Check
  result : CheckResult
  passed : Bool

/-- `Item::build`. -/
def Item.build (check : Check) (s : SummaryData) : Item :=
  let result := check.eval s
  { check := check, result := result, passed := result.isPassed }

/-- `Summary::items`. -/
def Summary.items (s : Summary) : List Item :=
  s.checks.map fun ch => Item.build ch s.data

/-- `Summary::exit_status`: OR together `1 << status_group` of every item
that did not pass.  Rust's `i32` is modelled as `Nat`; every group in the
registry is at most 4, far from the sign bit. -/
def Summary.exit_status (s : Summary) : Nat :=
  s.items.foldl
    (fun status item =>
      if item.passed then status else status ||| (1 <<< item.check.status_group))
    0

/-- `CheckList::required_sources`: fold the selected checks' groups into one
union. -/
def required_sources (checks : List Check) : Group :=
  checks.foldl (fun acc check => Group.union acc check.required_data) EMPTY

end Preserves

/-! ## Concrete data used by witnesses and counterexamples -/

namespace Samples

open Git Preserves

/-- A 40-hex commit id. -/
def cCommit : ObjectName := ⟨"0a03ba3cfde6472cb7431958dd78ca2c0d65de74".toList⟩

/-- A 40-hex annotated-tag id. -/
def cTagId : ObjectName := ⟨"de4280e681a2a5989e17f223054d13858aef2861".toList⟩

/-- A dataset where the branch's commit carries a pushed annotated tag, and
where the remote also (coincidentally) lists the commit id itself as a
refname. -/
def sFull : SummaryData :=
  { status := { branch := some { oid := .Commit cCommit,
                                 head := .Branch ⟨"main".toList⟩,
                                 upstream := some ⟨"origin/main".toList⟩,
                                 commits := some ⟨0, 0⟩ },
                lines := [] },
    ls_remote := [⟨cTagId, ⟨"refs/tags/v2.0".toList⟩⟩,
                  ⟨cCommit, ⟨"refs/heads/main".toList⟩⟩],
    for_each_ref := [{ object_name := cTagId, object_type := .Tag,
                       referred_object := some cCommit,
                       local_ref := ⟨"refs/tags/v2.0".toList⟩ }] }

/-- A dataset with no branch header at all. -/
def sNoBranch : SummaryData :=
  { status := { branch := none, lines := [] }, ls_remote := [], for_each_ref := [] }

/-- The clean `SummaryData` of claim C5: no body lines, a named head, an
upstream, and (0,0) tracking counts. -/
def cleanSummary (oid : Oid) (nm up : RefName)
    (lsr : List RefPair) (fer : List RefLine) : SummaryData :=
  { status := { branch := some { oid := oid, head := .Branch nm,
                                 upstream := some up, commits := some ⟨0, 0⟩ },
                lines := [] },
    ls_remote := lsr, for_each_ref := fer }

/-- All nine registry checks over the branchless dataset. -/
def sAll : Summary := { data := sNoBranch, checks := Preserves.ALL_CHECKS }

end Samples

/-! ## Helper lemmas -/

open Git Preserves

theorem exists_testBit_of_ne_zero {n : Nat} (h : n ≠ 0) : ∃ i, n.testBit i = true := by
  by_contra hc
  push_neg at hc
  exact h (Nat.eq_of_testBit_eq fun i => by simp [hc i, Nat.zero_testBit])

theorem ne_zero_of_testBit {n i : Nat} (h : n.testBit i = true) : n ≠ 0 := by
  intro h0
  rw [h0, Nat.zero_testBit] at h
  exact Bool.false_ne_true h

theorem group_eq_empty_iff (b : Group) : b = EMPTY ↔ b.val = 0 := by
  cases b
  simp [EMPTY]

/-- `testBit` of a single shifted bit. -/
theorem testBit_one_shiftLeft (g b : Nat) : (1 <<< g).testBit b = decide (g = b) := by
  rw [Nat.shiftLeft_eq, Nat.one_mul]
  by_cases h : g = b
  · subst h
    simp [Nat.testBit_two_pow_self]
  · simp [Nat.testBit_two_pow_of_ne h, h]

/-- OR-fold of a list of naturals. -/
def orFold (l : List Nat) : Nat := l.foldl (fun a x => a ||| x) 0

/-- The `1 << status_group` masks of the selected checks that did not pass. -/
def failing_groups (s : Summary) : List Nat :=
  (s.checks.filter fun ch => !(ch.eval s.data).isPassed).map fun ch => 1 <<< ch.status_group

theorem foldl_or_init (l : List Nat) (a : Nat) :
    l.foldl (fun x y => x ||| y) a = a ||| orFold l := by
  induction l generalizing a with
  | nil => simp [orFold]
  | cons x xs ih =>
    simp only [orFold, List.foldl_cons, Nat.zero_or] at *
    rw [ih (a ||| x), ih x, Nat.lor_assoc]

theorem orFold_cons (x : Nat) (l : List Nat) : orFold (x :: l) = x ||| orFold l := by
  simp only [orFold, List.foldl_cons, Nat.zero_or]
  exact foldl_or_init l x

theorem exit_fold_eq (l : List Check) (d : SummaryData) (acc : Nat) :
    l.foldl (fun st ch => if (ch.eval d).isPassed then st
                          else st ||| (1 <<< ch.status_group)) acc
      = acc ||| orFold ((l.filter fun ch => !(ch.eval d).isPassed).map
                          fun ch => 1 <<< ch.status_group) := by
  induction l generalizing acc with
  | nil => simp [orFold]
  | cons ch xs ih =>
    by_cases h : (ch.eval d).isPassed = true
    · simp only [List.foldl_cons, h, if_true, List.filter_cons, Bool.not_eq_true']
      rw [ih acc]
      simp [h]
    · rw [Bool.not_eq_true] at h
      simp only [List.foldl_cons, h, Bool.false_eq_true, if_false, List.filter_cons]
      rw [ih (acc ||| (1 <<< ch.status_group))]
      simp only [h, Bool.not_false, if_true, List.map_cons, orFold_cons, Nat.lor_assoc]

theorem testBit_orFold_failing (l : List Check) (d : SummaryData) (b : Nat) :
    (orFold ((l.filter fun ch => !(ch.eval d).isPassed).map
               fun ch => 1 <<< ch.status_group)).testBit b = true
      ↔ ∃ ch ∈ l, (ch.eval d).isPassed = false ∧ ch.status_group = b := by
  induction l with
  | nil => simp [orFold, Nat.zero_testBit]
  | cons ch xs ih =>
    by_cases h : (ch.eval d).isPassed = true
    · simp only [List.filter_cons, h, Bool.not_true, Bool.false_eq_true, if_false]
      rw [ih]
      constructor
      · rintro ⟨c, hc, hf, hg⟩
        exact ⟨c, List.mem_cons_of_mem _ hc, hf, hg⟩
      · rintro ⟨c, hc, hf, hg⟩
        rcases List.mem_cons.mp hc with rfl | hc
        · rw [h] at hf
          exact absurd hf (by simp)
        · exact ⟨c, hc, hf, hg⟩
    · rw [Bool.not_eq_true] at h
      simp only [List.filter_cons, h, Bool.not_false, if_true, List.map_cons, orFold_cons,
        Nat.testBit_lor, Bool.or_eq_true, testBit_one_shiftLeft, decide_eq_true_eq]
      rw [ih]
      constructor
      · rintro (hg | ⟨c, hc, hf, hg⟩)
        · exact ⟨ch, List.mem_cons_self _ _, h, hg⟩
        · exact ⟨c, List.mem_cons_of_mem _ hc, hf, hg⟩
      · rintro ⟨c, hc, hf, hg⟩
        rcases List.mem_cons.mp hc with rfl | hc
        · exact Or.inl hg
        · exact Or.inr ⟨c, hc, hf, hg⟩

/-! ## Consumption: every parser's remainder is a suffix of its input -/

open Nom

/-- A parser only ever returns a suffix of its input as the remainder. -/
def Suffixing (p : Parser α) : Prop :=
  ∀ i r v, p i = .ok (r, v) → r <:+ i

theorem sfx_tag (t : Input) : Suffixing (tag t) := by
  intro i r v h
  unfold tag at h
  split at h
  · cases h
    exact List.drop_suffix _ _
  · exact Except.noConfusion h

theorem takeUntilAux_suffix (t : Input) :
    ∀ i pre rest, takeUntilAux t i = some (pre, rest) → rest <:+ i := by
  intro i
  induction i with
  | nil =>
    intro pre rest h
    unfold takeUntilAux at h
    split at h
    · cases h
      exact List.suffix_refl _
    · exact Option.noConfusion h
  | cons c cs ih =>
    intro pre rest h
    unfold takeUntilAux at h
    split at h
    · cases h
      exact List.suffix_refl _
    · cases hrec : takeUntilAux t cs with
      | none => rw [hrec] at h; exact Option.noConfusion h
      | some p =>
        obtain ⟨pre1, rest1⟩ := p
        rw [hrec] at h
        cases h
        exact (ih _ _ hrec).trans (List.suffix_cons _ _)

theorem sfx_takeUntil (t : Input) : Suffixing (takeUntil t) := by
  intro i r v h
  unfold takeUntil at h
  cases ha : takeUntilAux t i with
  | none => rw [ha] at h; exact Except.noConfusion h
  | some p =>
    obtain ⟨pre, rest⟩ := p
    rw [ha] at h
    cases h
    exact takeUntilAux_suffix t i _ _ ha

theorem sfx_takeWhile (p : Char → Bool) : Suffixing (takeWhile p) := by
  intro i r v h
  cases h
  exact List.dropWhile_suffix p

theorem sfx_takeWhileMN (m n : Nat) (p : Char → Bool) : Suffixing (takeWhileMN m n p) := by
  intro i r v h
  unfold takeWhileMN at h
  dsimp only at h
  split at h
  · exact Except.noConfusion h
  · cases h
    exact List.drop_suffix _ _

theorem sfx_takeTill1 (p : Char → Bool) : Suffixing (takeTill1 p) := by
  intro i r v h
  unfold takeTill1 at h
  dsimp only at h
  split at h
  · exact Except.noConfusion h
  · cases h
    exact List.drop_suffix _ _

theorem sfx_take (n : Nat) : Suffixing (take n) := by
  intro i r v h
  unfold take at h
  split at h
  · cases h
    exact List.drop_suffix _ _
  · exact Except.noConfusion h

theorem sfx_oneOf (cs : Input) : Suffixing (oneOf cs) := by
  intro i r v h
  unfold oneOf at h
  match i with
  | [] => exact Except.noConfusion h
  | c :: rest =>
    dsimp only at h
    split at h
    · cases h
      exact List.suffix_cons _ _
    · exact Except.noConfusion h

theorem sfx_pbind {p : Parser α} {f : α → Parser β}
    (hp : Suffixing p) (hf : ∀ v, Suffixing (f v)) : Suffixing (pbind p f) := by
  intro i r v h
  unfold pbind at h
  cases hp' : p i with
  | error e => rw [hp'] at h; exact Except.noConfusion h
  | ok q =>
    obtain ⟨i1, v1⟩ := q
    rw [hp'] at h
    exact (hf v1 _ _ _ h).trans (hp _ _ _ hp')

theorem sfx_pmap {p : Parser α} {f : α → β} (hp : Suffixing p) : Suffixing (pmap p f) := by
  intro i r v h
  unfold pmap at h
  cases hp' : p i with
  | error e => rw [hp'] at h; exact Except.noConfusion h
  | ok q =>
    obtain ⟨i1, v1⟩ := q
    rw [hp'] at h
    cases h
    exact hp _ _ _ hp'

theorem sfx_mapRes {p : Parser α} {f : α → Option β} (hp : Suffixing p) :
    Suffixing (mapRes p f) := by
  intro i r v h
  unfold mapRes at h
  cases hp' : p i with
  | error e => rw [hp'] at h; exact Except.noConfusion h
  | ok q =>
    obtain ⟨i1, v1⟩ := q
    rw [hp'] at h
    dsimp only at h
    cases hf : f v1 with
    | none => rw [hf] at h; exact Except.noConfusion h
    | some w =>
      rw [hf] at h
      cases h
      exact hp _ _ _ hp'

theorem sfx_opt {p : Parser α} (hp : Suffixing p) : Suffixing (opt p) := by
  intro i r v h
  unfold opt at h
  cases hp' : p i with
  | error e => rw [hp'] at h; cases h; exact List.suffix_refl _
  | ok q =>
    obtain ⟨i1, v1⟩ := q
    rw [hp'] at h
    cases h
    exact hp _ _ _ hp'

theorem sfx_alt2 {p q : Parser α} (hp : Suffixing p) (hq : Suffixing q) :
    Suffixing (alt2 p q) := by
  intro i r v h
  unfold alt2 at h
  cases hp' : p i with
  | error e => rw [hp'] at h; exact hq _ _ _ h
  | ok x =>
    rw [hp'] at h
    cases h
    exact hp _ _ _ hp'

theorem sfx_pure (v : α) : Suffixing (Nom.pure v) := by
  intro i r w h
  cases h
  exact List.suffix_refl _

theorem sfx_preceded {a : Parser α} {b : Parser β} (ha : Suffixing a) (hb : Suffixing b) :
    Suffixing (preceded a b) :=
  sfx_pbind ha fun _ => hb

theorem sfx_terminated {a : Parser α} {b : Parser β} (ha : Suffixing a) (hb : Suffixing b) :
    Suffixing (terminated a b) :=
  sfx_pbind ha fun _ => sfx_pmap hb

theorem sfx_delimited {a : Parser α} {b : Parser β} {c : Parser γ}
    (ha : Suffixing a) (hb : Suffixing b) (hc : Suffixing c) :
    Suffixing (delimited a b c) :=
  sfx_pbind ha fun _ => sfx_pbind hb fun _ => sfx_pmap hc

theorem sfx_separatedPair {a : Parser α} {s : Parser σ} {b : Parser β}
    (ha : Suffixing a) (hs : Suffixing s) (hb : Suffixing b) :
    Suffixing (separatedPair a s b) :=
  sfx_pbind ha fun _ => sfx_pbind hs fun _ => sfx_pmap hb

theorem sfx_countP {p : Parser α} (hp : Suffixing p) : ∀ n, Suffixing (countP p n) := by
  intro n
  induction n with
  | zero => exact sfx_pure []
  | succ k ih => exact sfx_pbind hp fun _ => sfx_pmap ih

theorem sfx_many0F {p : Parser α} (hp : Suffixing p) : ∀ fuel, Suffixing (many0F p fuel) := by
  intro fuel
  induction fuel with
  | zero => intro i r v h; exact Except.noConfusion h
  | succ n ih =>
    intro i r v h
    unfold many0F at h
    cases hp' : p i with
    | error e =>
      rw [hp'] at h
      cases h
      exact List.suffix_refl _
    | ok q =>
      obtain ⟨i1, v1⟩ := q
      rw [hp'] at h
      dsimp only at h
      split at h
      · cases hm : many0F p n i1 with
        | error e => rw [hm] at h; exact Except.noConfusion h
        | ok q2 =>
          obtain ⟨r2, vs⟩ := q2
          rw [hm] at h
          cases h
          exact (ih _ _ _ hm).trans (hp _ _ _ hp')
      · exact Except.noConfusion h

theorem sfx_many0 {p : Parser α} (hp : Suffixing p) : Suffixing (many0 p) := by
  intro i r v h
  exact sfx_many0F hp _ _ _ _ h

theorem sfx_sha : Suffixing sha := sfx_pmap (sfx_takeWhileMN _ _ _)

theorem sfx_filepath : Suffixing filepath := sfx_pmap (sfx_takeTill1 _)

theorem sfx_branch_oid : Suffixing branch_oid :=
  sfx_delimited (sfx_tag _)
    (sfx_alt2 (sfx_pmap (sfx_tag _)) (sfx_pmap (sfx_takeUntil _))) (sfx_tag _)

theorem sfx_branch_head : Suffixing branch_head :=
  sfx_delimited (sfx_tag _)
    (sfx_alt2 (sfx_pmap (sfx_tag _)) (sfx_pmap (sfx_takeUntil _))) (sfx_tag _)

theorem sfx_branch_upstream : Suffixing branch_upstream :=
  sfx_delimited (sfx_tag _) (sfx_pmap (sfx_takeUntil _)) (sfx_tag _)

theorem sfx_tagged_commits (pattern : Input) : Suffixing (tagged_commits pattern) :=
  sfx_mapRes (sfx_preceded (sfx_tag _) (sfx_takeWhile _))

theorem sfx_branch_commits : Suffixing branch_commits :=
  sfx_pmap (sfx_delimited (sfx_tag _)
    (sfx_separatedPair (sfx_tagged_commits _) (sfx_tag _) (sfx_tagged_commits _)) (sfx_tag _))

theorem sfx_branch : Suffixing branch :=
  sfx_pbind sfx_branch_oid fun _ =>
  sfx_pbind sfx_branch_head fun _ =>
  sfx_pbind (sfx_opt sfx_branch_upstream) fun _ =>
  sfx_pmap (sfx_opt sfx_branch_commits)

theorem sfx_octal : Suffixing octal := sfx_mapRes (sfx_take _)

theorem sfx_mode : Suffixing mode := sfx_mapRes (sfx_countP sfx_octal _)

theorem sfx_line_status : Suffixing line_status := by
  intro i r v h
  unfold line_status at h
  cases ht : take 1 i with
  | error e => rw [ht] at h; exact Except.noConfusion h
  | ok q =>
    obtain ⟨r1, s⟩ := q
    rw [ht] at h
    dsimp only at h
    cases htbl : line_status_tbl s with
    | none => rw [htbl] at h; exact Except.noConfusion h
    | some ls =>
      rw [htbl] at h
      cases h
      exact sfx_take 1 _ _ _ ht

theorem sfx_status_pair : Suffixing status_pair :=
  sfx_pbind sfx_line_status fun _ => sfx_pmap sfx_line_status

theorem sfx_submodule_status_flag (pattern : Input) :
    Suffixing (submodule_status_flag pattern) :=
  sfx_pmap (sfx_oneOf _)

theorem sfx_submodule_status : Suffixing submodule_status := by
  refine sfx_pbind (sfx_oneOf _) fun s => ?_
  dsimp only [submodule_status]
  split
  · exact sfx_pmap (sfx_countP (sfx_oneOf _) _)
  · exact sfx_pbind (sfx_submodule_status_flag _) fun _ =>
      sfx_pbind (sfx_submodule_status_flag _) fun _ =>
      sfx_pmap (sfx_submodule_status_flag _)

theorem sfx_tagged_score (pattern : Input) : Suffixing (tagged_score pattern) :=
  sfx_mapRes (sfx_preceded (sfx_tag _) (sfx_takeWhile _))

theorem sfx_change_score : Suffixing change_score :=
  sfx_alt2 (sfx_pmap (sfx_tagged_score _)) (sfx_pmap (sfx_tagged_score _))

theorem sfx_one_file_line : Suffixing one_file_line :=
  sfx_pbind (sfx_terminated sfx_status_pair (sfx_tag _)) fun _ =>
  sfx_pbind (sfx_terminated sfx_submodule_status (sfx_tag _)) fun _ =>
  sfx_pbind (sfx_terminated sfx_mode (sfx_tag _)) fun _ =>
  sfx_pbind (sfx_terminated sfx_mode (sfx_tag _)) fun _ =>
  sfx_pbind (sfx_terminated sfx_mode (sfx_tag _)) fun _ =>
  sfx_pbind (sfx_terminated sfx_sha (sfx_tag _)) fun _ =>
  sfx_pbind (sfx_terminated sfx_sha (sfx_tag _)) fun _ =>
  sfx_pmap sfx_filepath

theorem sfx_two_file_line : Suffixing two_file_line :=
  sfx_pbind (sfx_terminated sfx_status_pair (sfx_tag _)) fun _ =>
  sfx_pbind (sfx_terminated sfx_submodule_status (sfx_tag _)) fun _ =>
  sfx_pbind (sfx_terminated sfx_mode (sfx_tag _)) fun _ =>
  sfx_pbind (sfx_terminated sfx_mode (sfx_tag _)) fun _ =>
  sfx_pbind (sfx_terminated sfx_mode (sfx_tag _)) fun _ =>
  sfx_pbind (sfx_terminated sfx_sha (sfx_tag _)) fun _ =>
  sfx_pbind (sfx_terminated sfx_sha (sfx_tag _)) fun _ =>
  sfx_pbind (sfx_terminated sfx_change_score (sfx_tag _)) fun _ =>
  sfx_pbind (sfx_terminated sfx_filepath (sfx_tag _)) fun _ =>
  sfx_pmap sfx_filepath

theorem sfx_unmerged_file_line : Suffixing unmerged_file_line :=
  sfx_pbind (sfx_terminated sfx_status_pair (sfx_tag _)) fun _ =>
  sfx_pbind (sfx_terminated sfx_submodule_status (sfx_tag _)) fun _ =>
  sfx_pbind (sfx_terminated sfx_mode (sfx_tag _)) fun _ =>
  sfx_pbind (sfx_terminated sfx_mode (sfx_tag _)) fun _ =>
  sfx_pbind (sfx_terminated sfx_mode (sfx_tag _)) fun _ =>
  sfx_pbind (sfx_terminated sfx_mode (sfx_tag _)) fun _ =>
  sfx_pbind (sfx_terminated sfx_sha (sfx_tag _)) fun _ =>
  sfx_pbind (sfx_terminated sfx_sha (sfx_tag _)) fun _ =>
  sfx_pbind (sfx_terminated sfx_sha (sfx_tag _)) fun _ =>
  sfx_pmap sfx_filepath

theorem sfx_status_line : Suffixing status_line :=
  sfx_alt2 (sfx_preceded (sfx_tag _) (sfx_pmap sfx_filepath))
  (sfx_alt2 (sfx_preceded (sfx_tag _) (sfx_pmap sfx_filepath))
  (sfx_alt2 (sfx_preceded (sfx_tag _) sfx_one_file_line)
  (sfx_alt2 (sfx_preceded (sfx_tag _) sfx_two_file_line)
            (sfx_preceded (sfx_tag _) sfx_unmerged_file_line))))

theorem sfx_status_lines : Suffixing status_lines :=
  sfx_many0 (sfx_terminated sfx_status_line (sfx_tag _))

theorem sfx_status : Suffixing status :=
  sfx_pbind (sfx_opt sfx_branch) fun _ => sfx_pmap sfx_status_lines

/-! ## Run lemmas: computing the combinators symbolically -/

theorem pbind_ok {p : Parser α} {f : α → Parser β} {i i1 : Input} {v : α}
    (h : p i = .ok (i1, v)) : pbind p f i = f v i1 := by
  unfold pbind
  rw [h]

theorem pmap_ok {p : Parser α} {f : α → β} {i i1 : Input} {v : α}
    (h : p i = .ok (i1, v)) : pmap p f i = .ok (i1, f v) := by
  unfold pmap
  rw [h]

theorem mapRes_ok {p : Parser α} {f : α → Option β} {i i1 : Input} {v : α} {w : β}
    (h : p i = .ok (i1, v)) (hf : f v = some w) : mapRes p f i = .ok (i1, w) := by
  unfold mapRes
  rw [h]
  dsimp only
  rw [hf]

theorem mapRes_none {p : Parser α} {f : α → Option β} {i i1 : Input} {v : α}
    (h : p i = .ok (i1, v)) (hf : f v = none) : mapRes p f i = .error ⟨i, .MapRes⟩ := by
  unfold mapRes
  rw [h]
  dsimp only
  rw [hf]

theorem pmap_err {p : Parser α} {f : α → β} {i : Input} {e : PError}
    (h : p i = .error e) : pmap p f i = .error e := by
  unfold pmap
  rw [h]

theorem alt2_ok1 {p q : Parser α} {i : Input} {r : Input × α}
    (h : p i = .ok r) : alt2 p q i = .ok r := by
  unfold alt2
  rw [h]

theorem alt2_err1 {p q : Parser α} {i : Input} {e : PError}
    (h : p i = .error e) : alt2 p q i = q i := by
  unfold alt2
  rw [h]

/-- `tag` consumes a literal prefix. -/
theorem tag_prefix_ok (t r : Input) : tag t (t ++ r) = .ok (r, t) := by
  unfold tag
  rw [if_pos (List.isPrefixOf_iff_prefix.mpr (List.prefix_append t r))]
  rw [List.drop_left]

/-- `tag` on a single-character literal standing at the head. -/
theorem tag_single_ok (c : Char) (r : Input) : tag [c] (c :: r) = .ok (r, [c]) :=
  tag_prefix_ok [c] r

/-- `tag` fails when its literal is not a prefix. -/
theorem tag_not_prefix {t i : Input} (h : ¬ t <+: i) : tag t i = .error ⟨i, .Tag⟩ := by
  unfold tag
  rw [if_neg]
  intro hb
  exact h (List.isPrefixOf_iff_prefix.mp hb)

/-- `takeUntilAux` on a single-character terminator not occurring in the
prefix part stops exactly at that character. -/
theorem takeUntilAux_not_mem {c : Char} {s : Input} (rest : Input) (h : c ∉ s) :
    takeUntilAux [c] (s ++ c :: rest) = some (s, c :: rest) := by
  induction s with
  | nil =>
    show takeUntilAux [c] (c :: rest) = _
    unfold takeUntilAux
    rw [if_pos]
    simp [List.isPrefixOf]
  | cons a as ih =>
    have hca : ¬ [c].isPrefixOf (a :: (as ++ c :: rest)) = true := by
      simp only [List.isPrefixOf, Bool.and_eq_true, beq_iff_eq, List.isPrefixOf_nil_left,
        and_true]
      intro hc
      exact h (hc ▸ List.mem_cons_self a as)
    have hmem : c ∉ as := fun hm => h (List.mem_cons_of_mem a hm)
    show takeUntilAux [c] (a :: (as ++ c :: rest)) = _
    unfold takeUntilAux
    rw [if_neg hca, ih hmem]

/-- `takeUntil` with a single-character terminator. -/
theorem takeUntil_not_mem {c : Char} {s : Input} (rest : Input) (h : c ∉ s) :
    takeUntil [c] (s ++ c :: rest) = .ok (c :: rest, s) := by
  unfold takeUntil
  rw [takeUntilAux_not_mem rest h]

/-- A pattern free of some character of the tail cannot become a prefix by
appending that tail: if `t` is not a prefix of `s` and `'c' ∉ t`, it is not a
prefix of `s ++ c :: rest` either. -/
theorem not_prefix_append_cons {t s : Input} {c : Char} (rest : Input)
    (hct : c ∉ t) (hts : ¬ t <+: s) : ¬ t <+: (s ++ c :: rest) := by
  intro hpre
  rcases le_or_lt t.length s.length with hle | hlt
  · apply hts
    rw [List.prefix_iff_eq_take] at hpre ⊢
    rwa [List.take_append_of_le_length hle] at hpre
  · have hsl : s.length < (s ++ c :: rest).length := by
      simp [List.length_append]
    have hget := hpre.getElem (n := s.length) hlt
    have hc : (s ++ c :: rest)[s.length] = c := by
      rw [List.getElem_append_right (Nat.le_refl s.length)]
      simp
    apply hct
    have hce : t[s.length] = c := by rw [hget]; exact hc
    exact hce ▸ List.getElem_mem hlt

/-- The terminator `t` occurs nowhere strictly inside `pre` viewed against
the input `pre ++ (t ++ tail)`: position `pre.length` is its first
occurrence. -/
abbrev firstStop (t pre tail : Input) : Prop :=
  ∀ k, k < pre.length → ¬ t.isPrefixOf ((pre ++ (t ++ tail)).drop k) = true

theorem takeUntilAux_firstStop {t pre tail : Input} (h : firstStop t pre tail) :
    takeUntilAux t (pre ++ (t ++ tail)) = some (pre, t ++ tail) := by
  induction pre with
  | nil =>
    simp only [List.nil_append]
    rcases htt : t ++ tail with _ | ⟨c, cs⟩
    · have ht : t = [] := List.append_eq_nil.mp htt |>.1
      have htl : tail = [] := List.append_eq_nil.mp htt |>.2
      subst ht
      subst htl
      decide
    · have hpre : t.isPrefixOf (c :: cs) = true := by
        rw [← htt]
        exact List.isPrefixOf_iff_prefix.mpr (List.prefix_append _ _)
      unfold takeUntilAux
      rw [if_pos hpre]
  | cons a as ih =>
    have h0 := h 0 (by simp)
    simp only [List.cons_append, List.drop_zero] at h0
    have hsh : firstStop t as tail := by
      intro k hk
      have hk1 := h (k + 1) (by simpa using Nat.succ_lt_succ hk)
      simpa [List.cons_append, List.drop_succ_cons] using hk1
    show takeUntilAux t (a :: (as ++ (t ++ tail))) = _
    unfold takeUntilAux
    rw [if_neg h0, ih hsh]

theorem takeUntil_firstStop {t pre tail : Input} (h : firstStop t pre tail) :
    takeUntil t (pre ++ (t ++ tail)) = .ok (t ++ tail, pre) := by
  unfold takeUntil
  rw [takeUntilAux_firstStop h]

theorem takeWhile_append_cons {p : Char → Bool} {a : Input} {c : Char} (r : Input)
    (ha : ∀ x ∈ a, p x = true) (hc : p c = false) :
    (a ++ c :: r).takeWhile p = a ∧ (a ++ c :: r).dropWhile p = c :: r := by
  induction a with
  | nil => simp [List.takeWhile_cons, List.dropWhile_cons, hc]
  | cons x xs ih =>
    have hx : p x = true := ha x (List.mem_cons_self x xs)
    have hxs : ∀ y ∈ xs, p y = true := fun y hy => ha y (List.mem_cons_of_mem x hy)
    obtain ⟨h1, h2⟩ := ih hxs
    simp [List.cons_append, List.takeWhile_cons, List.dropWhile_cons, hx, h1, h2]

/-- Running `take_while` against a delimited run of matching characters. -/
theorem takeWhile_run {p : Char → Bool} {a : Input} {c : Char} (r : Input)
    (ha : ∀ x ∈ a, p x = true) (hc : p c = false) :
    takeWhile p (a ++ c :: r) = .ok (c :: r, a) := by
  obtain ⟨h1, h2⟩ := takeWhile_append_cons r ha hc
  unfold takeWhile
  rw [h1, h2]

/-- `take_while_m_n(2, 2, ...)` on two matching characters takes exactly
those two, whatever follows. -/
theorem takeWhileMN_two {p : Char → Bool} {a b : Char} (r : Input)
    (hha : p a = true) (hhb : p b = true) :
    takeWhileMN 2 2 p (a :: b :: r) = .ok (r, [a, b]) := by
  unfold takeWhileMN
  dsimp only
  have hw : (a :: b :: r).takeWhile p = a :: b :: r.takeWhile p := by
    simp [List.takeWhile_cons, hha, hhb]
  rw [hw]
  have hlen : ¬ (a :: b :: r.takeWhile p).length < 2 := by simp
  rw [if_neg hlen]
  have hmin : min (a :: b :: r.takeWhile p).length 2 = 2 :=
    Nat.min_eq_right (by simp)
  rw [hmin]
  rfl

theorem parseNatLt_digits {bound : Nat} {ds : Input} (hne : ds ≠ [])
    (hdig : ∀ c ∈ ds, is_digit c = true) (hlt : digitsVal ds < bound) :
    parseNatLt bound ds = some (digitsVal ds) := by
  have h1 : ds.isEmpty = false := by
    cases ds
    · exact absurd rfl hne
    · rfl
  have h2 : ds.all is_digit = true := List.all_eq_true.mpr hdig
  simp [parseNatLt, h1, h2, hlt]

theorem tag_single_err {c d : Char} (r : Input) (h : c ≠ d) :
    tag [c] (d :: r) = .error ⟨d :: r, .Tag⟩ :=
  tag_not_prefix fun hp => h (List.cons_prefix_cons.mp hp).1

theorem is_digit_toNat_lt {c : Char} (h : is_digit c = true) :
    c.toNat - '0'.toNat < 10 := by
  unfold is_digit Char.isDigit at h
  rw [Bool.and_eq_true] at h
  obtain ⟨_, h2⟩ := h
  rw [decide_eq_true_eq] at h2
  have hle : c.val.toNat ≤ 57 := h2
  have h0 : '0'.toNat = 48 := rfl
  rw [h0]
  show c.val.toNat - 48 < 10
  omega

theorem digitsVal_pair_lt {a b : Char} (ha : is_digit a = true) (hb : is_digit b = true) :
    digitsVal [a, b] < 2 ^ 31 := by
  have h1 := is_digit_toNat_lt ha
  have h2 := is_digit_toNat_lt hb
  have hv : digitsVal [a, b] = ((a.toNat - '0'.toNat) * 10) + (b.toNat - '0'.toNat) := by
    simp [digitsVal, List.foldl]
  have hp : (2 : ℕ) ^ 31 = 2147483648 := by norm_num
  omega

theorem pair_digits {a b : Char} (ha : is_digit a = true) (hb : is_digit b = true) :
    ∀ c ∈ ([a, b] : Input), is_digit c = true := by
  intro c hc
  rcases List.mem_cons.mp hc with rfl | hc
  · exact ha
  rcases List.mem_cons.mp hc with rfl | hc
  · exact hb
  · simp at hc

/-! ## Claim theorems -/

/-- C4: the tracking-annotation parser maps `""` to `(0,0)`, `"[gone]"` to the
gone sentinel `none`, and bracketed ahead/behind clause lists to summed
counts, independent of clause order: `[ahead 7]` gives (7,0), `[behind 9]`
gives (0,9), `[ahead 13, behind 15]` gives (13,15) in either clause order,
and same-kind clause values are summed. -/
theorem tracking_state_spec :
    tracking_state ("".toList) = .ok ([], some (0, 0)) ∧
    tracking_state ("[gone]".toList) = .ok ([], none) ∧
    tracking_state ("[ahead 7]".toList) = .ok ([], some (7, 0)) ∧
    tracking_state ("[behind 9]".toList) = .ok ([], some (0, 9)) ∧
    tracking_state ("[ahead 13, behind 15]".toList) = .ok ([], some (13, 15)) ∧
    tracking_state ("[behind 15, ahead 13]".toList) = .ok ([], some (13, 15)) ∧
    tracking_state ("[ahead 2, ahead 3]".toList) = .ok ([], some (5, 0)) :=
  ⟨by decide, by decide, by decide, by decide, by decide, by decide, by decide⟩

/-- C9: the status parser accepts the empty string, producing the default
`Status`: no branch header and no body lines. -/
theorem status_parse_empty :
    parse ("".toList) = .ok Status.default ∧
    Status.default = { branch := none, lines := [] } := by
  decide

/-- C5: on a status with no body lines and a branch with a named head, an
upstream and (0,0) tracking counts, the seven status-data checks all pass,
whatever the other two datasets hold. -/
theorem clean_status_all_passed (oid : Oid) (nm up : RefName)
    (lsr : List RefPair) (fer : List RefLine) :
    untracked_files (Samples.cleanSummary oid nm up lsr fer) = .Passed ∧
    modified_files (Samples.cleanSummary oid nm up lsr fer) = .Passed ∧
    uncommited_changes (Samples.cleanSummary oid nm up lsr fer) = .Passed ∧
    detached_head (Samples.cleanSummary oid nm up lsr fer) = .Passed ∧
    untracked_branch (Samples.cleanSummary oid nm up lsr fer) = .Passed ∧
    remote_changes (Samples.cleanSummary oid nm up lsr fer) = .Passed ∧
    unpushed_commit (Samples.cleanSummary oid nm up lsr fer) = .Passed :=
  ⟨rfl, rfl, rfl, rfl, rfl, rfl, rfl⟩

/-- C6: `remote_changes` passes exactly when a branch exists, its tracking
counts are known, and the behind count is zero; a nonzero behind count gives
`Bad(behind)`; a missing branch or missing counts give `Bad(1)`. -/
theorem remote_changes_spec (s : SummaryData) :
    (remote_changes s = .Passed ↔
       ∃ b tc, s.status.branch = some b ∧ b.commits = some tc ∧ tc.behind = 0) ∧
    (∀ b tc, s.status.branch = some b → b.commits = some tc → tc.behind ≠ 0 →
       remote_changes s = .Bad tc.behind) ∧
    (s.status.branch = none → remote_changes s = .Bad 1) ∧
    (∀ b, s.status.branch = some b → b.commits = none → remote_changes s = .Bad 1) := by
  refine ⟨?_, ?_, ?_, ?_⟩
  · constructor
    · intro h
      rcases hb : s.status.branch with _ | b
      · simp [remote_changes, hb, CheckResult.fromCount] at h
      · rcases hc : b.commits with _ | tc
        · simp [remote_changes, hb, hc, CheckResult.fromCount] at h
        · by_cases h0 : tc.behind = 0
          · exact ⟨b, tc, by simp [hb], by simp [hc], h0⟩
          · exact absurd h (by simp [remote_changes, hb, hc, CheckResult.fromCount, h0])
    · rintro ⟨b, tc, hb, hc, h0⟩
      simp [remote_changes, hb, hc, h0, CheckResult.fromCount]
  · intro b tc hb hc hne
    simp [remote_changes, hb, hc, CheckResult.fromCount, hne]
  · intro hb
    simp [remote_changes, hb, CheckResult.fromCount]
  · intro b hb hc
    simp [remote_changes, hb, hc, CheckResult.fromCount]

/-- Witness for C6 at a concrete dataset with no branch. -/
theorem remote_changes_spec_witness :
    remote_changes Samples.sNoBranch = .Bad 1 :=
  (remote_changes_spec Samples.sNoBranch).2.2.1 rfl

/-- C10: `Group::includes` is a non-empty-intersection test: it holds iff the
two bitsets share a set bit; consequently `union(a,b).includes(b)` holds iff
`b` is not `EMPTY`, and `EMPTY` neither includes nor is included in
anything. -/
theorem group_includes_spec (a b : Group) :
    (Group.includes a b = true ↔
       ∃ i, a.val.testBit i = true ∧ b.val.testBit i = true) ∧
    (Group.includes (Group.union a b) b = true ↔ b ≠ EMPTY) ∧
    Group.includes a EMPTY = false ∧ Group.includes EMPTY b = false := by
  refine ⟨?_, ?_, ?_, ?_⟩
  · simp only [Group.includes, bne_iff_ne, ne_eq]
    constructor
    · intro h
      obtain ⟨i, hi⟩ := exists_testBit_of_ne_zero h
      rw [Nat.testBit_land, Bool.and_eq_true] at hi
      exact ⟨i, hi⟩
    · rintro ⟨i, h1, h2⟩ h0
      have hbit : (a.val &&& b.val).testBit i = true := by
        simp [Nat.testBit_land, h1, h2]
      exact ne_zero_of_testBit hbit h0
  · simp only [Group.includes, Group.union, bne_iff_ne, ne_eq]
    constructor
    · intro h hb
      rw [group_eq_empty_iff] at hb
      rw [hb, Nat.and_zero] at h
      exact h rfl
    · intro hb h0
      have hval : b.val ≠ 0 := fun hv => hb ((group_eq_empty_iff b).mpr hv)
      obtain ⟨i, hi⟩ := exists_testBit_of_ne_zero hval
      have hbit : ((a.val ||| b.val) &&& b.val).testBit i = true := by
        rw [Nat.testBit_land, Nat.testBit_lor, hi]
        simp
      exact ne_zero_of_testBit hbit h0
  · simp [Group.includes, EMPTY, Nat.and_zero]
  · simp [Group.includes, EMPTY, Nat.zero_and]

/-- Witness for C10 at concrete groups: `STATUS ∪ REMOTE` includes `REMOTE`
(which is not empty), intersects `STATUS` on bit 0, and ignores `EMPTY`. -/
theorem group_includes_spec_witness :
    (Group.includes (Group.union STATUS REMOTE) REMOTE = true ↔ REMOTE ≠ EMPTY) ∧
    Group.includes (Group.union STATUS REMOTE) EMPTY = false :=
  ⟨(group_includes_spec (Group.union STATUS REMOTE) REMOTE).2.1,
   (group_includes_spec (Group.union STATUS REMOTE) EMPTY).2.2.1⟩

/-- C2 (code bug): in the registry, only the `current commit is tagged`
entry declares the `REFS` source; the `tag is pushed` entry declares
`STATUS ∪ REMOTE` and NOT `REFS`, so selecting it alone never fetches the
ref data its evaluator reads — and the evaluator indeed fails whenever
either the ref list or the remote list is substituted empty, even though the
very same dataset with both lists present passes (the remote list even
contains the branch commit itself as a refname, so the failure is not a
coincidental-match artifact). -/
theorem unpushed_tag_requires_refs_bug :
    (ALL_CHECKS.map fun ch => ch.label) =
      ["all commits pushed to remote", "all commits merged from remote",
       "no uncommited changes", "no unstaged changes", "all files tracked",
       "commit tracked by local ref", "branch tracks remote",
       "current commit is tagged", "tag is pushed"] ∧
    (ALL_CHECKS.map fun ch => ch.required_data.includes REFS) =
      [false, false, false, false, false, false, false, true, false] ∧
    (required_sources (ALL_CHECKS.drop 8)).includes REFS = false ∧
    (required_sources (ALL_CHECKS.drop 8)).includes REMOTE = true ∧
    unpushed_tag Samples.sFull = .Passed ∧
    unpushed_tag { Samples.sFull with for_each_ref := [] } = .Failed ∧
    unpushed_tag { Samples.sFull with ls_remote := [] } = .Failed :=
  ⟨by decide, by decide, by decide, by decide, by decide, by decide, by decide⟩

/-- C7: the exit status is the OR of `1 << status_group` over exactly the
selected checks whose result is not `Passed`: it equals the OR-fold of the
failing checks' masks, it is zero iff every selected check passed, bit `b`
is set iff some failing check has group `b`, and two failing checks sharing
a group contribute one and the same bit. -/
theorem exit_status_spec (s : Summary) :
    s.exit_status = orFold (failing_groups s) ∧
    (s.exit_status = 0 ↔ ∀ ch ∈ s.checks, (ch.eval s.data).isPassed = true) ∧
    (∀ b : Nat, s.exit_status.testBit b = true ↔
       ∃ ch ∈ s.checks, (ch.eval s.data).isPassed = false ∧ ch.status_group = b) ∧
    (∀ ch₁ ch₂, ch₁ ∈ s.checks → ch₂ ∈ s.checks →
       (ch₁.eval s.data).isPassed = false → (ch₂.eval s.data).isPassed = false →
       ch₁.status_group = ch₂.status_group →
       (1 <<< ch₁.status_group) = (1 <<< ch₂.status_group) ∧
       s.exit_status.testBit ch₁.status_group = true) := by
  have hfold : s.exit_status = orFold (failing_groups s) := by
    simp only [Summary.exit_status, Summary.items, List.foldl_map, Item.build, failing_groups]
    rw [exit_fold_eq, Nat.zero_or]
  have h3 : ∀ b : Nat, s.exit_status.testBit b = true ↔
      ∃ ch ∈ s.checks, (ch.eval s.data).isPassed = false ∧ ch.status_group = b := by
    intro b
    rw [hfold]
    simpa only [failing_groups] using testBit_orFold_failing s.checks s.data b
  refine ⟨hfold, ?_, h3, ?_⟩
  · constructor
    · intro h0 ch hch
      by_contra hne
      rw [Bool.not_eq_true] at hne
      have hb := (h3 ch.status_group).mpr ⟨ch, hch, hne, rfl⟩
      rw [h0, Nat.zero_testBit] at hb
      exact Bool.false_ne_true hb
    · intro hall
      refine Nat.eq_of_testBit_eq fun i => ?_
      rw [Nat.zero_testBit]
      cases hb : s.exit_status.testBit i with
      | false => rfl
      | true =>
        obtain ⟨ch, hch, hf, _⟩ := (h3 i).mp hb
        rw [hall ch hch] at hf
        exact absurd hf (by simp)
  · intro ch₁ ch₂ h₁ h₂ hf₁ hf₂ hg
    exact ⟨by rw [hg], (h3 ch₁.status_group).mpr ⟨ch₁, h₁, hf₁, rfl⟩⟩

/-- Witness for C7: the full registry over the branchless dataset; the
`remote_changes` entry (index 1, group 3) fails, so bit 3 is set. -/
theorem exit_status_spec_witness :
    Summary.exit_status Samples.sAll = orFold (failing_groups Samples.sAll) ∧
    (Summary.exit_status Samples.sAll).testBit 3 = true :=
  ⟨(exit_status_spec Samples.sAll).1,
   ((exit_status_spec Samples.sAll).2.2.1 3).mpr
     ⟨ALL_CHECKS.get ⟨1, by decide⟩, List.get_mem ALL_CHECKS 1 (by decide),
      by decide, by decide⟩⟩

/-- C1: on every input, the status parser either succeeds having consumed the
whole input, or fails with an error carrying the unconsumed remainder (a
suffix of the input); a `Status` is never produced from a proper prefix: an
`ok` from `parse` forces the underlying parser's remainder to be empty. -/
theorem status_parse_total (i : Input) :
    (∃ st, parse i = .ok st ∧ status i = .ok ([], st)) ∨
    (∃ rest st, rest ≠ [] ∧ rest <:+ i ∧ status i = .ok (rest, st) ∧
       parse i = .error (.Trailing rest)) ∨
    (∃ e, status i = .error e ∧ parse i = .error (.Failed e)) := by
  cases h : status i with
  | ok q =>
    obtain ⟨rest, st⟩ := q
    by_cases hr : rest = []
    · subst hr
      exact Or.inl ⟨st, by simp [parse, settle_parse_result, h], rfl⟩
    · refine Or.inr (Or.inl ⟨rest, st, hr, sfx_status _ _ _ h, rfl, ?_⟩)
      simp [parse, settle_parse_result, h, hr]
  | error e =>
    exact Or.inr (Or.inr ⟨e, rfl, by simp [parse, settle_parse_result, h]⟩)

/-- Witness for C1 at an input with leftover text the grammar rejects. -/
theorem status_parse_total_witness :
    (∃ st, parse ("junk".toList) = .ok st ∧ status ("junk".toList) = .ok ([], st)) ∨
    (∃ rest st, rest ≠ [] ∧ rest <:+ "junk".toList ∧
       status ("junk".toList) = .ok (rest, st) ∧
       parse ("junk".toList) = .error (.Trailing rest)) ∨
    (∃ e, status ("junk".toList) = .error e ∧
       parse ("junk".toList) = .error (.Failed e)) :=
  status_parse_total ("junk".toList)

/-- C3 counterexample: the whole status parser accepts an oid field `zz`
that is neither the literal `(initial)` nor 40 hexadecimal characters, and
wraps it verbatim in `Oid::Commit` — the oid text is NOT validated. -/
theorem branch_oid_accepts_nonhex :
    parse ("# branch.oid zz\n# branch.head m\n".toList) =
      .ok { branch := some { oid := .Commit ⟨"zz".toList⟩,
                             head := .Branch ⟨"m".toList⟩,
                             upstream := none, commits := none },
            lines := [] } ∧
    "zz".toList ≠ "(initial)".toList ∧
    ("zz".toList).length ≠ 40 :=
  ⟨by decide, by decide, by decide⟩

/-- C3 amended: after `# branch.oid `, the field accepts exactly the literal
`(initial)` (yielding `Oid::Initial`) or ANY newline-free text that does not
begin with `(initial)` (yielding `Oid::Commit` of that text verbatim, with no
40-hex check), consuming through the terminating newline. -/
theorem branch_oid_amended (s rest : Input) (hnl : '\n' ∉ s) :
    (s = "(initial)".toList →
       branch_oid ("# branch.oid ".toList ++ (s ++ '\n' :: rest)) = .ok (rest, .Initial)) ∧
    (¬ "(initial)".toList <+: s →
       branch_oid ("# branch.oid ".toList ++ (s ++ '\n' :: rest)) =
         .ok (rest, .Commit ⟨s⟩)) := by
  constructor
  · intro hs
    subst hs
    unfold branch_oid Nom.delimited
    rw [pbind_ok (tag_prefix_ok _ _)]
    have halt : alt2 (pmap (tag ("(initial)".toList)) fun _ => Oid.Initial)
        (pmap (takeUntil ['\n']) fun s => Oid.Commit ⟨s⟩)
        ("(initial)".toList ++ '\n' :: rest) = .ok ('\n' :: rest, Oid.Initial) :=
      alt2_ok1 (pmap_ok (tag_prefix_ok _ _))
    rw [pbind_ok halt]
    rw [pmap_ok (tag_single_ok '\n' rest)]
  · intro hnp
    unfold branch_oid Nom.delimited
    rw [pbind_ok (tag_prefix_ok _ _)]
    have hfail : tag ("(initial)".toList) (s ++ '\n' :: rest) =
        .error ⟨s ++ '\n' :: rest, .Tag⟩ :=
      tag_not_prefix (not_prefix_append_cons rest (by decide) hnp)
    have halt : alt2 (pmap (tag ("(initial)".toList)) fun _ => Oid.Initial)
        (pmap (takeUntil ['\n']) fun s => Oid.Commit ⟨s⟩)
        (s ++ '\n' :: rest) = .ok ('\n' :: rest, Oid.Commit ⟨s⟩) := by
      rw [alt2_err1 (pmap_err hfail)]
      exact pmap_ok (takeUntil_not_mem rest hnl)
    rw [pbind_ok halt]
    rw [pmap_ok (tag_single_ok '\n' rest)]

/-- Witness for the amended C3: a 3-character non-hex oid is accepted
verbatim. -/
theorem branch_oid_amended_witness :
    branch_oid ("# branch.oid ".toList ++ ("abc".toList ++ '\n' :: "X".toList)) =
      .ok ("X".toList, .Commit ⟨"abc".toList⟩) :=
  (branch_oid_amended ("abc".toList) ("X".toList) (by decide)).2 (by decide)

/-- C8 counterexample: on the repository's own `creator_parse` test vector
(epoch `1570644797`, zone `-0700`) the parsed UTC instant is the epoch value
itself — it is NOT the epoch shifted by the signed zone offset (±25200
seconds), in either direction. -/
theorem creator_timestamp_not_shifted :
    creator ("Judson <nyarly@gmail.com> 1570644797 -0700".toList) =
      some (.ok ([], ("Judson".toList, "nyarly@gmail.com".toList, (1570644797 : Int)))) ∧
    (1570644797 : Int) ≠ 1570644797 + (7 * 3600) ∧
    (1570644797 : Int) ≠ 1570644797 - (7 * 3600) :=
  ⟨by decide, by decide, by decide⟩

/-- C8 amended: in the creator field, the zone sign is `+` or `-`, the zone
hours are the next 2 digits and the zone minutes the 2 after.  For zones
whose total offset stays under 24 hours (`hours*60 + minutes < 1440`) the
resulting UTC instant equals the parsed epoch-seconds value UNCHANGED (the
zone offset does not shift it), and an epoch beyond chrono's representable
range is a parse failure (an error at the position after the minutes), never
a clamped value; a zone whose offset reaches 24 hours aborts the program
(chrono's `FixedOffset::east`/`west` panic) and yields no parse result at
all. -/
theorem creator_amended (nm em ds : Input) (sd d1 d2 d3 d4 : Char) (rest : Input)
    (hnm : firstStop (" <".toList) nm
             (em ++ ("> ".toList ++ (ds ++ ' ' :: sd :: d1 :: d2 :: d3 :: d4 :: rest))))
    (hem : firstStop ("> ".toList) em
             (ds ++ ' ' :: sd :: d1 :: d2 :: d3 :: d4 :: rest))
    (hds : ds ≠ []) (hdig : ∀ c ∈ ds, is_digit c = true)
    (hbound : digitsVal ds < 2 ^ 63)
    (hsd : sd = '+' ∨ sd = '-')
    (hd1 : is_digit d1 = true) (hd2 : is_digit d2 = true)
    (hd3 : is_digit d3 = true) (hd4 : is_digit d4 = true) :
    (digitsVal [d1, d2] * 60 + digitsVal [d3, d4] < 1440 →
       (digitsVal ds ≤ 8210298412799 →
          creator (nm ++ (" <".toList ++ (em ++ ("> ".toList ++
              (ds ++ ' ' :: sd :: d1 :: d2 :: d3 :: d4 :: rest))))) =
            some (.ok (rest, (nm, em, (digitsVal ds : Int))))) ∧
       (8210298412799 < digitsVal ds →
          creator (nm ++ (" <".toList ++ (em ++ ("> ".toList ++
              (ds ++ ' ' :: sd :: d1 :: d2 :: d3 :: d4 :: rest))))) =
            some (.error ⟨rest, .TakeWhileMN⟩))) ∧
    (1440 ≤ digitsVal [d1, d2] * 60 + digitsVal [d3, d4] →
       creator (nm ++ (" <".toList ++ (em ++ ("> ".toList ++
           (ds ++ ' ' :: sd :: d1 :: d2 :: d3 :: d4 :: rest))))) = none) := by
  have hsgn : ∃ sg, mapRes (alt2 (tag ['+']) (tag ['-'])) Sign.ofChars
      (sd :: d1 :: d2 :: d3 :: d4 :: rest) = .ok (d1 :: d2 :: d3 :: d4 :: rest, sg) := by
    rcases hsd with rfl | rfl
    · exact ⟨.Pos, mapRes_ok (alt2_ok1 (tag_single_ok '+' _)) rfl⟩
    · have halt : alt2 (tag ['+']) (tag ['-']) ('-' :: d1 :: d2 :: d3 :: d4 :: rest) =
          .ok (d1 :: d2 :: d3 :: d4 :: rest, ['-']) := by
        rw [alt2_err1 (tag_single_err _ (by decide))]
        exact tag_single_ok '-' _
      exact ⟨.Neg, mapRes_ok halt rfl⟩
  obtain ⟨sg, hsgn⟩ := hsgn
  have hfields : creator_fields (nm ++ (" <".toList ++ (em ++ ("> ".toList ++
      (ds ++ ' ' :: sd :: d1 :: d2 :: d3 :: d4 :: rest))))) =
      .ok (rest, (nm, em, digitsVal ds, sg, digitsVal [d1, d2], digitsVal [d3, d4])) := by
    unfold creator_fields
    rw [pbind_ok (takeUntil_firstStop hnm)]
    try dsimp only
    rw [pbind_ok (tag_prefix_ok (" <".toList) _)]
    try dsimp only
    rw [pbind_ok (takeUntil_firstStop hem)]
    try dsimp only
    rw [pbind_ok (tag_prefix_ok ("> ".toList) _)]
    try dsimp only
    rw [pbind_ok (mapRes_ok (takeWhile_run _ hdig (by decide))
          (parseNatLt_digits hds hdig hbound))]
    try dsimp only
    rw [pbind_ok (tag_single_ok ' ' _)]
    try dsimp only
    rw [pbind_ok hsgn]
    try dsimp only
    rw [pbind_ok (mapRes_ok (takeWhileMN_two _ hd1 hd2)
          (parseNatLt_digits (by simp) (pair_digits hd1 hd2) (digitsVal_pair_lt hd1 hd2)))]
    try dsimp only
    rw [pmap_ok (mapRes_ok (takeWhileMN_two _ hd3 hd4)
          (parseNatLt_digits (by simp) (pair_digits hd3 hd4) (digitsVal_pair_lt hd3 hd4)))]
  have hrun : ∀ g : Option (Option Int),
      build_timestamp (sg, digitsVal [d1, d2], digitsVal [d3, d4]) (digitsVal ds : Int) = g →
      creator (nm ++ (" <".toList ++ (em ++ ("> ".toList ++
          (ds ++ ' ' :: sd :: d1 :: d2 :: d3 :: d4 :: rest))))) =
        (match g with
         | none => none
         | some (some ts) => some (.ok (rest, (nm, em, ts)))
         | some none => some (.error ⟨rest, .TakeWhileMN⟩)) := by
    intro g hg
    unfold creator
    rw [hfields]
    dsimp only
    rw [hg]
  refine ⟨fun hoff => ?_, fun hoff => ?_⟩
  · have hvalid : (digitsVal [d1, d2] * 60 + digitsVal [d3, d4]) * 60 < 86400 := by omega
    constructor
    · intro hle
      refine hrun (some (some (digitsVal ds : Int))) ?_
      unfold build_timestamp chronoMinTimestamp chronoMaxTimestamp
      dsimp only
      rw [if_pos hvalid, if_pos]
      exact ⟨by omega, by exact_mod_cast hle⟩
    · intro hgt
      refine hrun (some none) ?_
      unfold build_timestamp chronoMinTimestamp chronoMaxTimestamp
      dsimp only
      rw [if_pos hvalid, if_neg]
      intro hcon
      have := hcon.2
      omega
  · refine hrun none ?_
    unfold build_timestamp
    dsimp only
    rw [if_neg (by omega)]

/-- Witness for the amended C8: a tiny in-range creator field parses to its
epoch value with a `+0102` zone, and the same field with an out-of-bounds
`+9900` zone aborts (chrono panic), yielding no result. -/
theorem creator_amended_witness :
    creator ("J".toList ++ (" <".toList ++ ("e".toList ++ ("> ".toList ++
        ("12".toList ++ ' ' :: '+' :: '0' :: '1' :: '0' :: '2' :: []))))) =
      some (.ok ([], ("J".toList, "e".toList, (12 : Int)))) ∧
    creator ("J".toList ++ (" <".toList ++ ("e".toList ++ ("> ".toList ++
        ("12".toList ++ ' ' :: '+' :: '9' :: '9' :: '0' :: '0' :: []))))) = none :=
  ⟨((creator_amended ("J".toList) ("e".toList) ("12".toList) '+' '0' '1' '0' '2' []
      (by decide) (by decide) (by decide) (by decide) (by decide)
      (Or.inl rfl) (by decide) (by decide) (by decide) (by decide)).1
      (by decide)).1 (by decide),
   (creator_amended ("J".toList) ("e".toList) ("12".toList) '+' '9' '9' '0' '0' []
      (by decide) (by decide) (by decide) (by decide) (by decide)
      (Or.inl rfl) (by decide) (by decide) (by decide) (by decide)).2 (by decide)⟩

end Confit
